import Mathlib

/-!
# koochooloo: the URL record store (`store/url.go`)

A shallow embedding of `MongoURL.Inc`, `MongoURL.Set`, `MongoURL.Get` and
`MongoURL.Count`, together with the part of the MongoDB collection they talk
to, followed by the properties of the store's specification.

Conventions of the embedding:

* the collection `urls` is the list of its documents in insertion order; the
  unique index on `key` is what makes `InsertOne` answer with the
  duplicate-key code 11000;
* instants are integers at the timestamp resolution of the store, and
  `time.Now()` is an argument of the operation that reads the clock;
* a round trip to the store can fail for reasons outside the collection
  (network, decoding, write concern): such a failure is an explicit
  `Option mongo.Error` handed to the round trip, `none` being a store that
  answers from its contents;
* `Set` calls itself on a collision, without bound; the embedding recurses on
  a fuel argument and answers `none` when it runs out.
-/

set_option autoImplicit false
set_option linter.dupNamespace false

namespace model

/-- The persisted record, `model.URL`: key, target url, optional expiry, visits. -/
structure URL where
  Key : String
  URL : String
  ExpireTime : Option Int
  Count : Int
deriving DecidableEq, Repr

end model

namespace mongo

/-- One entry of `mongo.WriteException.WriteErrors`. -/
structure WriteError where
  Index : Int
  Code : Int
  Message : String
deriving DecidableEq, Repr

/-- Errors that the MongoDB driver hands back to the store.  `Wrapped` is an
error whose `Unwrap` gives `inner`; `Other` stands for every remaining failure
(network, decoding, cancellation). -/
inductive Error where
  | ErrNoDocuments
  | WriteException (WriteErrors : List WriteError)
  | Wrapped (msg : String) (inner : Error)
  | Other (msg : String)
deriving DecidableEq, Repr

/-- Go's `errors.Is(err, mongo.ErrNoDocuments)`: walks the chain of wrapped errors. -/
def Error.IsErrNoDocuments : Error → Bool
  | .ErrNoDocuments => true
  | .Wrapped _ inner => inner.IsErrNoDocuments
  | _ => false

/-- Go's type assertion `err.(mongo.WriteException)`: it looks at the dynamic
type of `err` itself and does not unwrap. -/
def Error.asWriteException : Error → Option (List WriteError)
  | .WriteException ws => some ws
  | _ => none

/-- The filter `{"key": key}` of `FindOneAndUpdate` in `Inc`. -/
def keyFilter (key : String) (d : model.URL) : Bool :=
  d.Key == key

/-- The filter of `Get` and `Count`:
`{"key": key, "$or": [{"expire_time": {"$eq": nil}}, {"expire_time": {"$gte": now}}]}`. -/
def lookupFilter (key : String) (now : Int) (d : model.URL) : Bool :=
  d.Key == key &&
    (d.ExpireTime == none ||
      (match d.ExpireTime with
       | some t => decide (t ≥ now)
       | none => false))

/-- The write error with which the unique index on `key` rejects an insert. -/
def duplicateKeyError : Error :=
  .WriteException [⟨0, 11000, "E11000 duplicate key error"⟩]

/-- The call `Collection.InsertOne` on a collection with a unique index on `key`: a
failing round trip leaves the collection as it is, a taken key is rejected with
code 11000, otherwise the document is appended. -/
def InsertOne (fault : Option Error) (docs : List model.URL) (d : model.URL) :
    Option Error × List model.URL :=
  match fault with
  | some e => (some e, docs)
  | none =>
    if docs.any (fun x => x.Key == d.Key) then (some duplicateKeyError, docs)
    else (none, docs ++ [d])

/-- The call `Collection.FindOne(filter)` followed by `Decode`: the first document that
passes the filter, `ErrNoDocuments` when there is none. -/
def FindOne (fault : Option Error) (docs : List model.URL) (filter : model.URL → Bool) :
    Except Error model.URL :=
  match fault with
  | some e => .error e
  | none =>
    match docs.find? filter with
    | some d => .ok d
    | none => .error .ErrNoDocuments

/-- The update `{"$inc": {"count": delta}}` applied to the first document that
passes the filter; `none` when no document passes. -/
def incFirst (filter : model.URL → Bool) (delta : Int) :
    List model.URL → Option (model.URL × List model.URL)
  | [] => none
  | d :: ds =>
    if filter d then some (d, { d with Count := d.Count + delta } :: ds)
    else
      match incFirst filter delta ds with
      | some (r, ds') => some (r, d :: ds')
      | none => none

/-- The call `Collection.FindOneAndUpdate(filter, {"$inc": {"count": delta}})`
followed by `Decode`: the matched document as it was before the update, and the
collection after it. -/
def FindOneAndUpdate (fault : Option Error) (docs : List model.URL)
    (filter : model.URL → Bool) (delta : Int) : Except Error model.URL × List model.URL :=
  match fault with
  | some e => (.error e, docs)
  | none =>
    match incFirst filter delta docs with
    | some (d, docs') => (.ok d, docs')
    | none => (.error .ErrNoDocuments, docs)

end mongo

namespace store

/-- The errors a caller of the store can see: the two sentinels of the package
and whatever the driver returned.  The driver cannot produce the sentinels. -/
inductive Error where
  | ErrKeyNotFound
  | ErrDuplicateKey
  | Driver (e : mongo.Error)
deriving DecidableEq, Repr

/-- What a Go function of result type `(α, error)` does when it stops: it
returns its pair, or the goroutine panics. -/
inductive Outcome (α : Type) where
  | ret (val : α) (err : Option Error)
  | panic (msg : String)
deriving DecidableEq, Repr

/-- The constant `mongodbDuplicateKeyErrorCode`. -/
def mongodbDuplicateKeyErrorCode : Int := 11000

/-- The constant `one`. -/
def one : Int := 1

/-- Go's `strings.HasPrefix`. -/
def HasPrefix (s pre : String) : Bool :=
  pre.data.isPrefixOf s.data

/-- What surrounds the store and is not decided by it.
`Key n` is the result of the `n`-th call of the key generator `Key()`;
`insertFault n` is the failure, if any, of the `n`-th `InsertOne` round trip. -/
structure Env where
  Key : Nat → String
  insertFault : Nat → Option mongo.Error

/-- The store `MongoURL`: the documents of the collection `urls` behind `DB`,
the two counters of the embedded `Usage`, and two ghost counters that number
the calls of `Key()` and of `InsertOne` made so far. -/
structure MongoURL where
  DB : List model.URL
  InsertedCounter : Nat
  FetchedCounter : Nat
  keyCalls : Nat
  insertCalls : Nat
deriving DecidableEq, Repr

/-- Modelled from the spec: the `Usage` counters are declared outside
`store/url.go`; `InsertedCounter.Inc()` is the atomic increment by one of the
"records inserted" counter. -/
def MongoURL.incInserted (s : MongoURL) : MongoURL :=
  { s with InsertedCounter := s.InsertedCounter + 1 }

/-- Modelled from the spec: `FetchedCounter.Inc()`, the atomic increment by one
of the "records fetched" counter. -/
def MongoURL.incFetched (s : MongoURL) : MongoURL :=
  { s with FetchedCounter := s.FetchedCounter + 1 }

/-- The method `MongoURL.Inc`: one `FindOneAndUpdate` on `{"key": key}` with
`{"$inc": {"count": one}}`; the error of decoding its result is returned as it is. -/
def Inc (fault : Option mongo.Error) (s : MongoURL) (key : String) :
    Option Error × MongoURL :=
  match mongo.FindOneAndUpdate fault s.DB (mongo.keyFilter key) one with
  | (.error err, docs) => (some (.Driver err), { s with DB := docs })
  | (.ok _, docs) => (none, { s with DB := docs })

/-- Lines 68-72 of `Set`: an empty `key` is replaced by the next result of
`Key()`, any other key by `fmt.Sprintf("$%s", key)`. -/
def assignKey (env : Env) (s : MongoURL) (key : String) : String × MongoURL :=
  if key = "" then (env.Key s.keyCalls, { s with keyCalls := s.keyCalls + 1 })
  else ("$" ++ key, s)

/-- The round trip `s.DB.Collection(Collection).InsertOne(ctx, record)`. -/
def insertRecord (env : Env) (s : MongoURL) (record : model.URL) :
    Option mongo.Error × MongoURL :=
  let ins := mongo.InsertOne (env.insertFault s.insertCalls) s.DB record
  (ins.1, { s with DB := ins.2, insertCalls := s.insertCalls + 1 })

/-- The method `MongoURL.Set`.  The argument `count` is never read: the record is stored
with `Count: 0`, and the recursive call passes `0`. -/
def Set (env : Env) : Nat → MongoURL → String → String → Option Int → Int →
    Option (Outcome String × MongoURL)
  | 0, _, _, _, _, _ => none
  | fuel + 1, s, key, url, expire, _ =>
    let ks := assignKey env s key
    let ins := insertRecord env ks.2.incInserted
      { Key := ks.1, URL := url, ExpireTime := expire, Count := 0 }
    match ins.1 with
    | some err =>
      match err.asWriteException with
      | some WriteErrors =>
        match WriteErrors with
        | [] => some (.panic "index out of range [0] with length 0", ins.2)
        | w :: _ =>
          if w.Code = mongodbDuplicateKeyErrorCode then
            if !HasPrefix ks.1 "$" then Set env fuel ins.2 "" url expire 0
            else some (.ret "" (some .ErrDuplicateKey), ins.2)
          else some (.ret "" (some (.Driver err)), ins.2)
      | none => some (.ret "" (some (.Driver err)), ins.2)
    | none => some (.ret ks.1 none, ins.2)

/-- The method `MongoURL.Get`, reading the clock as `now`. -/
def Get (fault : Option mongo.Error) (s : MongoURL) (key : String) (now : Int) :
    (String × Option Error) × MongoURL :=
  match mongo.FindOne fault s.DB (mongo.lookupFilter key now) with
  | .error err =>
    if err.IsErrNoDocuments then (("", some .ErrKeyNotFound), s)
    else (("", some (.Driver err)), s)
  | .ok url => ((url.URL, none), s.incFetched)

/-- The method `MongoURL.Count`, reading the clock as `now`. -/
def Count (fault : Option mongo.Error) (s : MongoURL) (key : String) (now : Int) :
    (Int × Option Error) × MongoURL :=
  match mongo.FindOne fault s.DB (mongo.lookupFilter key now) with
  | .error err =>
    if err.IsErrNoDocuments then ((0, some .ErrKeyNotFound), s)
    else ((0, some (.Driver err)), s)
  | .ok url => ((url.Count, none), s)

/-- The store right after `NewMongoURL` on an empty collection. -/
def emptyStore : MongoURL :=
  { DB := [], InsertedCounter := 0, FetchedCounter := 0, keyCalls := 0, insertCalls := 0 }

/-- An environment whose store never fails and whose generator yields `f`. -/
def reliable (f : Nat → String) : Env :=
  { Key := f, insertFault := fun _ => none }

/-- The invariant that the unique index on `key` maintains: no two documents of
the collection have the same key. -/
def UniqueKeys (s : MongoURL) : Prop :=
  (s.DB.map (fun d => d.Key)).Nodup

instance (s : MongoURL) : Decidable (UniqueKeys s) :=
  inferInstanceAs (Decidable (List.Nodup _))

/-- A caller that runs `Inc` on `key` once for each entry of `faults`, one call
after the other, and goes on only while the calls succeed: the store after the
last call when every call returned a nil error, `none` as soon as one did not. -/
def IncAll : List (Option mongo.Error) → MongoURL → String → Option MongoURL
  | [], s, _ => some s
  | fault :: rest, s, key =>
    match Inc fault s key with
    | (none, s') => IncAll rest s' key
    | (some _, _) => none

/-- A generator whose first three keys are "abc", "def" and "xyz". -/
def sampleKeys (n : Nat) : String :=
  if n = 0 then "abc" else if n = 1 then "def" else "xyz"

/-- A store that already holds records under "abc" and "def". -/
def sampleStore : MongoURL :=
  { DB := [⟨"abc", "https://a.example", none, 3⟩, ⟨"def", "https://d.example", some 50, 1⟩],
    InsertedCounter := 2, FetchedCounter := 5, keyCalls := 0, insertCalls := 0 }

end store

/-! ## Lemmas on the collection -/

namespace mongo

theorem any_key_eq_false {docs : List model.URL} {k : String} :
    docs.any (fun x => x.Key == k) = false ↔ ∀ d ∈ docs, d.Key ≠ k := by
  simp [List.any_eq_false]

theorem lookupFilter_key {k : String} {now : Int} {d : model.URL}
    (h : lookupFilter k now d = true) : d.Key = k := by
  simp [lookupFilter] at h
  exact h.1

theorem find?_lookup_append_new {docs : List model.URL} {k : String} (now : Int)
    (r : model.URL) (hfresh : ∀ d ∈ docs, d.Key ≠ k) :
    (docs ++ [r]).find? (lookupFilter k now) =
      if lookupFilter k now r then some r else none := by
  have hnone : docs.find? (lookupFilter k now) = none := by
    rw [List.find?_eq_none]
    intro d hd hp
    exact hfresh d hd (lookupFilter_key hp)
  rw [List.find?_append, hnone]
  by_cases hr : lookupFilter k now r = true <;> simp [List.find?, hr]

end mongo

namespace store

theorem HasPrefix_dollar (key : String) : HasPrefix ("$" ++ key) "$" = true := by
  simp [HasPrefix, String.data_append, List.isPrefixOf]

theorem assignKey_frame (env : Env) (s : MongoURL) (key : String) :
    (assignKey env s key).2.DB = s.DB ∧
    (assignKey env s key).2.InsertedCounter = s.InsertedCounter ∧
    (assignKey env s key).2.FetchedCounter = s.FetchedCounter ∧
    (assignKey env s key).2.insertCalls = s.insertCalls := by
  unfold assignKey
  split <;> simp

theorem insertRecord_spec (env : Env) (s : MongoURL) (d : model.URL) :
    (insertRecord env s d).2.InsertedCounter = s.InsertedCounter ∧
    (insertRecord env s d).2.FetchedCounter = s.FetchedCounter ∧
    (insertRecord env s d).2.keyCalls = s.keyCalls ∧
    (insertRecord env s d).2.insertCalls = s.insertCalls + 1 ∧
    (((insertRecord env s d).1 = none ∧ (∀ x ∈ s.DB, x.Key ≠ d.Key) ∧
        (insertRecord env s d).2.DB = s.DB ++ [d]) ∨
      ((insertRecord env s d).1 ≠ none ∧ (insertRecord env s d).2.DB = s.DB)) := by
  simp only [insertRecord, mongo.InsertOne]
  cases env.insertFault s.insertCalls with
  | some e => simp
  | none =>
    by_cases hany : s.DB.any (fun x => x.Key == d.Key) = true
    · simp [hany]
    · have hfresh := mongo.any_key_eq_false.mp (Bool.not_eq_true _ ▸ hany)
      simp only [hany]
      simp
      exact hfresh

theorem assignKey_reserved (env : Env) (s : MongoURL) {key : String} (h : key ≠ "") :
    assignKey env s key = ("$" ++ key, s) := by
  simp [assignKey, h]

theorem assignKey_generated (env : Env) (s : MongoURL) :
    assignKey env s "" = (env.Key s.keyCalls, { s with keyCalls := s.keyCalls + 1 }) := by
  simp [assignKey]

/-- What every finished call of `Set` did to the store: the fetched counter is
untouched, the inserted counter moved once per insert round trip, and either
the call succeeded and appended exactly its record under a key that was free,
or it did not succeed and the collection is as before. -/
theorem Set_spec (env : Env) :
    ∀ (fuel : Nat) (s : MongoURL) (key url : String) (expire : Option Int) (c : Int)
      (o : Outcome String) (s' : MongoURL),
      Set env fuel s key url expire c = some (o, s') →
      s'.FetchedCounter = s.FetchedCounter ∧
      s.insertCalls < s'.insertCalls ∧
      s'.InsertedCounter + s.insertCalls = s.InsertedCounter + s'.insertCalls ∧
      ((∃ k, o = .ret k none ∧ (key ≠ "" → k = "$" ++ key) ∧ (∀ d ∈ s.DB, d.Key ≠ k) ∧
          s'.DB = s.DB ++ [{ Key := k, URL := url, ExpireTime := expire, Count := 0 }]) ∨
        ((∀ k, o ≠ .ret k none) ∧ s'.DB = s.DB)) := by
  intro fuel
  induction fuel with
  | zero => intro s key url expire c o s' h; simp [Set] at h
  | succ n ih =>
    intro s key url expire c o s' h
    simp only [Set] at h
    obtain ⟨ha1, ha2, ha3, ha4⟩ := assignKey_frame env s key
    obtain ⟨hi1, hi2, hi3, hi4, hi5⟩ := insertRecord_spec env (assignKey env s key).2.incInserted
      { Key := (assignKey env s key).1, URL := url, ExpireTime := expire, Count := 0 }
    have hres : key ≠ "" → (assignKey env s key).1 = "$" ++ key := by
      intro hk; rw [assignKey_reserved env s hk]
    generalize (assignKey env s key).1 = k at *
    generalize (assignKey env s key).2 = s1 at *
    generalize insertRecord env s1.incInserted
      { Key := k, URL := url, ExpireTime := expire, Count := 0 } = r at *
    obtain ⟨e, s2⟩ := r
    simp only [MongoURL.incInserted] at hi1 hi2 hi3 hi4 hi5
    simp only at h hi1 hi2 hi3 hi4 hi5
    have hcnt : s2.FetchedCounter = s.FetchedCounter ∧ s.insertCalls < s2.insertCalls ∧
        s2.InsertedCounter + s.insertCalls = s.InsertedCounter + s2.insertCalls := by
      refine ⟨by omega, by omega, by omega⟩
    cases e with
    | none =>
      simp only [Option.some.injEq, Prod.mk.injEq] at h
      obtain ⟨rfl, rfl⟩ := h
      rcases hi5 with ⟨_, hfresh, hdb⟩ | ⟨hne, _⟩
      · refine ⟨hcnt.1, hcnt.2.1, hcnt.2.2, Or.inl ⟨k, rfl, hres, ?_, ?_⟩⟩
        · rw [← ha1]; exact hfresh
        · rw [hdb, ha1]
      · exact absurd rfl hne
    | some err =>
      have hdb : s2.DB = s.DB := by
        rcases hi5 with ⟨h0, _⟩ | ⟨_, hdb⟩
        · cases h0
        · rw [hdb, ha1]
      simp only at h
      split at h
      · split at h
        · simp only [Option.some.injEq, Prod.mk.injEq] at h
          obtain ⟨rfl, rfl⟩ := h
          exact ⟨hcnt.1, hcnt.2.1, hcnt.2.2, Or.inr ⟨fun k hk => (by cases hk), hdb⟩⟩
        · split at h
          · split at h
            · rename_i hpre
              have hgen : key = "" := by
                by_contra hk
                rw [hres hk, HasPrefix_dollar] at hpre
                simp at hpre
              obtain ⟨h1, h2, h3, h4⟩ := ih s2 "" url expire 0 o s' h
              refine ⟨by omega, by omega, by omega, ?_⟩
              rcases h4 with ⟨k', ho, _, hfresh, hdb'⟩ | ⟨hno, hdb'⟩
              · refine Or.inl ⟨k', ho, fun hk => absurd hgen hk, ?_, ?_⟩
                · rw [← hdb]; exact hfresh
                · rw [hdb', hdb]
              · exact Or.inr ⟨hno, by rw [hdb', hdb]⟩
            · simp only [Option.some.injEq, Prod.mk.injEq] at h
              obtain ⟨rfl, rfl⟩ := h
              exact ⟨hcnt.1, hcnt.2.1, hcnt.2.2, Or.inr ⟨fun k hk => (by cases hk), hdb⟩⟩
          · simp only [Option.some.injEq, Prod.mk.injEq] at h
            obtain ⟨rfl, rfl⟩ := h
            exact ⟨hcnt.1, hcnt.2.1, hcnt.2.2, Or.inr ⟨fun k hk => (by cases hk), hdb⟩⟩
      · simp only [Option.some.injEq, Prod.mk.injEq] at h
        obtain ⟨rfl, rfl⟩ := h
        exact ⟨hcnt.1, hcnt.2.1, hcnt.2.2, Or.inr ⟨fun k hk => (by cases hk), hdb⟩⟩

/-! ## Lemmas on `Inc`, `Get` and `Count` -/

theorem incFirst_first (filter : model.URL → Bool) (pre : List model.URL) (r : model.URL)
    (post : List model.URL) (hpre : ∀ d ∈ pre, filter d = false) (hr : filter r = true) :
    mongo.incFirst filter 1 (pre ++ r :: post) =
      some (r, pre ++ { r with Count := r.Count + 1 } :: post) := by
  induction pre with
  | nil => simp [mongo.incFirst, hr]
  | cons d ds ih =>
    have hd : filter d = false := hpre d (List.mem_cons_self _ _)
    have hds : ∀ x ∈ ds, filter x = false := fun x hx => hpre x (List.mem_cons_of_mem _ hx)
    simp [mongo.incFirst, hd, ih hds]

theorem keyFilter_eq_false {k : String} {d : model.URL} (h : d.Key ≠ k) :
    mongo.keyFilter k d = false := by
  simp [mongo.keyFilter, h]

theorem Inc_first (s : MongoURL) (pre : List model.URL) (r : model.URL)
    (post : List model.URL) (hdb : s.DB = pre ++ r :: post)
    (hpre : ∀ d ∈ pre, d.Key ≠ r.Key) :
    Inc none s r.Key =
      (none, { s with DB := pre ++ { r with Count := r.Count + 1 } :: post }) := by
  have h := incFirst_first (mongo.keyFilter r.Key) pre r post
    (fun d hd => keyFilter_eq_false (hpre d hd)) (by simp [mongo.keyFilter])
  simp [Inc, mongo.FindOneAndUpdate, one, hdb, h]

theorem Inc_fault (e : mongo.Error) (s : MongoURL) (key : String) :
    Inc (some e) s key = (some (.Driver e), s) := by
  simp [Inc, mongo.FindOneAndUpdate]

theorem Inc_counters (fault : Option mongo.Error) (s : MongoURL) (key : String) :
    (Inc fault s key).2.InsertedCounter = s.InsertedCounter ∧
    (Inc fault s key).2.FetchedCounter = s.FetchedCounter ∧
    (Inc fault s key).2.keyCalls = s.keyCalls ∧
    (Inc fault s key).2.insertCalls = s.insertCalls := by
  unfold Inc
  split <;> simp

theorem mem_split_first_key {docs : List model.URL} {r : model.URL}
    (huniq : (docs.map (fun d => d.Key)).Nodup) (hr : r ∈ docs) :
    ∃ pre post, docs = pre ++ r :: post ∧ (∀ d ∈ pre, d.Key ≠ r.Key) ∧
      (∀ d ∈ post, d.Key ≠ r.Key) := by
  obtain ⟨pre, post, rfl⟩ := List.append_of_mem hr
  refine ⟨pre, post, rfl, ?_, ?_⟩
  · intro d hd heq
    rw [List.map_append, List.map_cons, List.nodup_append] at huniq
    exact huniq.2.2 (List.mem_map_of_mem _ hd)
      (by rw [heq]; exact List.mem_cons_self _ _)
  · intro d hd heq
    rw [List.map_append, List.map_cons, List.nodup_append, List.nodup_cons] at huniq
    exact huniq.2.1.1 (by rw [← heq]; exact List.mem_map_of_mem _ hd)

theorem find?_lookup_unique {docs : List model.URL} {r : model.URL} (now : Int)
    (huniq : (docs.map (fun d => d.Key)).Nodup) (hr : r ∈ docs) :
    docs.find? (mongo.lookupFilter r.Key now) =
      if mongo.lookupFilter r.Key now r then some r else none := by
  obtain ⟨pre, post, rfl, hpre, hpost⟩ := mem_split_first_key huniq hr
  have hnpre : pre.find? (mongo.lookupFilter r.Key now) = none := by
    rw [List.find?_eq_none]
    intro d hd hp
    exact hpre d hd (mongo.lookupFilter_key hp)
  have hnpost : post.find? (mongo.lookupFilter r.Key now) = none := by
    rw [List.find?_eq_none]
    intro d hd hp
    exact hpost d hd (mongo.lookupFilter_key hp)
  rw [List.find?_append, hnpre]
  by_cases hp : mongo.lookupFilter r.Key now r = true
  · simp [List.find?, hp]
  · simp [List.find?, hp, hnpost]

theorem lookupFilter_live (k url : String) (expire : Option Int) (c now : Int)
    (hlive : ∀ t, expire = some t → now ≤ t) :
    mongo.lookupFilter k now { Key := k, URL := url, ExpireTime := expire, Count := c } = true := by
  cases expire with
  | none => simp [mongo.lookupFilter]
  | some t => simp [mongo.lookupFilter, hlive t rfl]

theorem lookupFilter_expired (k url : String) (t c now : Int) (hlate : t < now) :
    mongo.lookupFilter k now { Key := k, URL := url, ExpireTime := some t, Count := c } = false := by
  simp [mongo.lookupFilter, hlate]

theorem IncAll_last (base : List model.URL) (k url : String) (expire : Option Int)
    (hfresh : ∀ d ∈ base, d.Key ≠ k) :
    ∀ (faults : List (Option mongo.Error)) (c : Int) (s sN : MongoURL),
      s.DB = base ++ [{ Key := k, URL := url, ExpireTime := expire, Count := c }] →
      IncAll faults s k = some sN →
      sN.DB = base ++ [{ Key := k, URL := url, ExpireTime := expire,
                         Count := c + (faults.length : Int) }] := by
  intro faults
  induction faults with
  | nil =>
    intro c s sN hdb h
    simp only [IncAll, Option.some.injEq] at h
    subst h
    simpa using hdb
  | cons f fs ih =>
    intro c s sN hdb h
    cases f with
    | some e =>
      simp [IncAll, Inc_fault] at h
    | none =>
      have hstep := Inc_first s base { Key := k, URL := url, ExpireTime := expire, Count := c } []
        hdb hfresh
      simp only at hstep
      simp only [IncAll, hstep] at h
      have := ih (c + 1) _ sN rfl h
      rw [this]
      simp only [List.length_cons, Nat.cast_add, Nat.cast_one]
      congr 3
      omega

theorem IncAll_reliable (base : List model.URL) (k url : String) (expire : Option Int)
    (hfresh : ∀ d ∈ base, d.Key ≠ k) :
    ∀ (n : Nat) (c : Int) (s : MongoURL),
      s.DB = base ++ [{ Key := k, URL := url, ExpireTime := expire, Count := c }] →
      ∃ sN, IncAll (List.replicate n none) s k = some sN := by
  intro n
  induction n with
  | zero => intro c s _; exact ⟨s, rfl⟩
  | succ n ih =>
    intro c s hdb
    have hstep := Inc_first s base { Key := k, URL := url, ExpireTime := expire, Count := c } []
      hdb hfresh
    simp only at hstep
    simp only [List.replicate_succ, IncAll, hstep]
    exact ih (c + 1) _ rfl

theorem Set_generated_fresh (env : Env) (fuel : Nat) (s : MongoURL) (url : String)
    (expire : Option Int) (c : Int)
    (hok : env.insertFault s.insertCalls = none)
    (hfree : ∀ d ∈ s.DB, d.Key ≠ env.Key s.keyCalls) :
    Set env (fuel + 1) s "" url expire c =
      some (.ret (env.Key s.keyCalls) none,
        { DB := s.DB ++ [{ Key := env.Key s.keyCalls, URL := url, ExpireTime := expire,
                           Count := 0 }],
          InsertedCounter := s.InsertedCounter + 1,
          FetchedCounter := s.FetchedCounter,
          keyCalls := s.keyCalls + 1,
          insertCalls := s.insertCalls + 1 }) := by
  have hany : s.DB.any (fun x => x.Key == env.Key s.keyCalls) = false :=
    mongo.any_key_eq_false.mpr hfree
  simp [Set, assignKey_generated, insertRecord, mongo.InsertOne, MongoURL.incInserted, hok,
    hany]

theorem Set_generated_collision (env : Env) (fuel : Nat) (s : MongoURL) (url : String)
    (expire : Option Int) (c : Int)
    (hok : env.insertFault s.insertCalls = none)
    (htaken : ∃ d ∈ s.DB, d.Key = env.Key s.keyCalls)
    (hgen : HasPrefix (env.Key s.keyCalls) "$" = false) :
    Set env (fuel + 1) s "" url expire c =
      Set env fuel
        { DB := s.DB,
          InsertedCounter := s.InsertedCounter + 1,
          FetchedCounter := s.FetchedCounter,
          keyCalls := s.keyCalls + 1,
          insertCalls := s.insertCalls + 1 } "" url expire 0 := by
  have hany : s.DB.any (fun x => x.Key == env.Key s.keyCalls) = true := by
    obtain ⟨d, hd, hk⟩ := htaken
    simp only [List.any_eq_true]
    exact ⟨d, hd, by simp [hk]⟩
  simp [Set, assignKey_generated, insertRecord, mongo.InsertOne, MongoURL.incInserted, hok,
    hany, mongo.duplicateKeyError, mongo.Error.asWriteException,
    mongodbDuplicateKeyErrorCode, hgen]

theorem UniqueKeys_emptyStore : UniqueKeys emptyStore := by
  simp [UniqueKeys, emptyStore]

/-- Every call of `Set` keeps the keys of the collection unique. -/
theorem UniqueKeys_Set (env : Env) (fuel : Nat) (s : MongoURL) (key url : String)
    (expire : Option Int) (c : Int) (o : Outcome String) (s' : MongoURL)
    (h : Set env fuel s key url expire c = some (o, s')) (huniq : UniqueKeys s) :
    UniqueKeys s' := by
  obtain ⟨_, _, _, hcase⟩ := Set_spec env fuel s key url expire c o s' h
  unfold UniqueKeys at *
  rcases hcase with ⟨k, _, _, hfresh, hdb⟩ | ⟨_, hdb⟩
  · rw [hdb, List.map_append, List.nodup_append]
    refine ⟨huniq, by simp, ?_⟩
    intro a ha hb
    simp only [List.map_cons, List.map_nil, List.mem_singleton] at hb
    obtain ⟨d, hd, hda⟩ := List.mem_map.mp ha
    exact hfresh d hd (by rw [hda, hb])
  · rw [hdb]; exact huniq

theorem incFirst_keys (filter : model.URL → Bool) (delta : Int) :
    ∀ (docs : List model.URL) (r : model.URL) (docs' : List model.URL),
      mongo.incFirst filter delta docs = some (r, docs') →
      docs'.map (fun d => d.Key) = docs.map (fun d => d.Key) := by
  intro docs
  induction docs with
  | nil => intro r docs' h; simp [mongo.incFirst] at h
  | cons d ds ih =>
    intro r docs' h
    simp only [mongo.incFirst] at h
    split at h
    · simp only [Option.some.injEq, Prod.mk.injEq] at h
      obtain ⟨_, rfl⟩ := h
      simp
    · split at h
      · rename_i r0 ds0 hrec
        simp only [Option.some.injEq, Prod.mk.injEq] at h
        obtain ⟨_, rfl⟩ := h
        simp [ih r0 ds0 hrec]
      · cases h

/-- Every call of `Inc` keeps the keys of the collection unique. -/
theorem UniqueKeys_Inc (fault : Option mongo.Error) (s : MongoURL) (key : String)
    (huniq : UniqueKeys s) : UniqueKeys (Inc fault s key).2 := by
  unfold UniqueKeys at *
  cases fault with
  | some e => rw [Inc_fault]; exact huniq
  | none =>
    simp only [Inc, mongo.FindOneAndUpdate]
    cases hrec : mongo.incFirst (mongo.keyFilter key) one s.DB with
    | none => simpa using huniq
    | some p =>
      obtain ⟨r, docs'⟩ := p
      simp only
      rw [incFirst_keys _ _ _ _ _ hrec]
      exact huniq

/-! ## The properties of the specification -/

/-- C1. Set-then-Get round trip for generated keys: from every store state, for
every url (the non-empty ones among them) with an empty key argument and no
expiry, when `Set` returns the key `k` and no error, a `Get` of `k` on the
resulting store, at any time and answered by the store, returns exactly that
url and no error. -/
theorem C1_set_get_round_trip (env : Env) (fuel : Nat) (s : MongoURL) (url : String)
    (count : Int) (k : String) (s1 : MongoURL) (now : Int)
    (hset : Set env fuel s "" url none count = some (.ret k none, s1)) :
    Get none s1 k now = ((url, none), s1.incFetched) := by
  obtain ⟨_, _, _, hcase⟩ := Set_spec env fuel s "" url none count _ _ hset
  rcases hcase with ⟨k', hk, _, hfresh, hdb⟩ | ⟨hno, _⟩
  · cases hk
    have hfind := mongo.find?_lookup_append_new now
      { Key := k, URL := url, ExpireTime := none, Count := 0 } hfresh
    rw [lookupFilter_live k url none 0 now (by intro t ht; cases ht)] at hfind
    simp [Get, mongo.FindOne, hdb, hfind]
  · exact absurd rfl (hno k)

/-- C1, at a concrete store: the generator yields "abc", then "xyz"; "abc" is taken. -/
theorem C1_set_get_round_trip_witness :
    Get none
        { DB := [⟨"abc", "https://old.example", none, 4⟩,
                 ⟨"xyz", "https://example.com", none, 0⟩],
          InsertedCounter := 2, FetchedCounter := 0, keyCalls := 2, insertCalls := 2 }
        "xyz" 1700000000 =
      (("https://example.com", none),
        MongoURL.incFetched
          { DB := [⟨"abc", "https://old.example", none, 4⟩,
                   ⟨"xyz", "https://example.com", none, 0⟩],
            InsertedCounter := 2, FetchedCounter := 0, keyCalls := 2, insertCalls := 2 }) :=
  C1_set_get_round_trip (reliable fun n => if n = 0 then "abc" else "xyz") 2
    { DB := [⟨"abc", "https://old.example", none, 4⟩],
      InsertedCounter := 0, FetchedCounter := 0, keyCalls := 0, insertCalls := 0 }
    "https://example.com" 7 "xyz" _ 1700000000 (by decide)

/-- C2. Reserved-key namespacing and duplicate rejection: for a non-empty
caller-supplied key and a store with no record keyed "$"+key, `Set` stores the
record under, and returns, the key "$"+key; a second `Set` with the same key,
whatever its url, expiry and count, returns `ErrDuplicateKey` with an empty
key after a single insert attempt and no call of the generator, and leaves the
collection, the first record included, as it was.  The store answers both
inserts from its contents. -/
theorem C2_reserved_key_duplicate (env : Env) (fuel fuel2 : Nat) (s : MongoURL)
    (key url url2 : String) (expire expire2 : Option Int) (count count2 : Int)
    (hkey : key ≠ "")
    (hfree : ∀ d ∈ s.DB, d.Key ≠ "$" ++ key)
    (hok1 : env.insertFault s.insertCalls = none)
    (hok2 : env.insertFault (s.insertCalls + 1) = none) :
    ∃ s1 s2 : MongoURL,
      Set env (fuel + 1) s key url expire count = some (.ret ("$" ++ key) none, s1) ∧
      s1.DB = s.DB ++ [{ Key := "$" ++ key, URL := url, ExpireTime := expire, Count := 0 }] ∧
      Set env (fuel2 + 1) s1 key url2 expire2 count2 =
        some (.ret "" (some .ErrDuplicateKey), s2) ∧
      s2.DB = s1.DB ∧ s2.keyCalls = s1.keyCalls ∧ s2.insertCalls = s1.insertCalls + 1 := by
  have hany : s.DB.any (fun x => x.Key == "$" ++ key) = false :=
    mongo.any_key_eq_false.mpr hfree
  refine ⟨{ s with DB := s.DB ++ [{ Key := "$" ++ key, URL := url, ExpireTime := expire,
                                    Count := 0 }],
                   InsertedCounter := s.InsertedCounter + 1,
                   insertCalls := s.insertCalls + 1 },
          { s with DB := s.DB ++ [{ Key := "$" ++ key, URL := url, ExpireTime := expire,
                                    Count := 0 }],
                   InsertedCounter := s.InsertedCounter + 1 + 1,
                   insertCalls := s.insertCalls + 1 + 1 }, ?_, rfl, ?_, rfl, rfl, rfl⟩
  · simp [Set, assignKey_reserved env _ hkey, insertRecord, mongo.InsertOne,
      MongoURL.incInserted, hok1, hany]
  · simp [Set, assignKey_reserved env _ hkey, insertRecord, mongo.InsertOne,
      MongoURL.incInserted, hok2, mongo.duplicateKeyError, mongo.Error.asWriteException,
      mongodbDuplicateKeyErrorCode, HasPrefix_dollar]

/-- C2, at the scenario of the specification: `Set(key="abc", url="https://x.io")`
twice on an empty store. -/
theorem C2_reserved_key_duplicate_witness :
    ∃ s1 s2 : MongoURL,
      Set (reliable fun _ => "q1w2e3") 1 emptyStore "abc" "https://x.io" none 0 =
        some (.ret ("$" ++ "abc") none, s1) ∧
      s1.DB = emptyStore.DB ++
        [{ Key := "$" ++ "abc", URL := "https://x.io", ExpireTime := none, Count := 0 }] ∧
      Set (reliable fun _ => "q1w2e3") 1 s1 "abc" "https://y.io" (some 5) 9 =
        some (.ret "" (some .ErrDuplicateKey), s2) ∧
      s2.DB = s1.DB ∧ s2.keyCalls = s1.keyCalls ∧ s2.insertCalls = s1.insertCalls + 1 :=
  C2_reserved_key_duplicate (reliable fun _ => "q1w2e3") 0 0 emptyStore "abc" "https://x.io"
    "https://y.io" none (some 5) 0 9 (by decide) (by simp [emptyStore]) rfl rfl

/-- C3. Expiry filter of `Get`: in a store whose keys are unique, for every
stored record `r`, `Get` of its key at time `now`, answered by the store, returns the record's url when
the record has no expire_time or `now <= expire_time` (the expiry instant
included), and returns `ErrKeyNotFound` when expire_time is present and
`now > expire_time`. -/
theorem C3_get_expiry_filter (s : MongoURL) (r : model.URL) (now : Int)
    (huniq : UniqueKeys s) (hr : r ∈ s.DB) :
    Get none s r.Key now =
      match r.ExpireTime with
      | none => ((r.URL, none), s.incFetched)
      | some t =>
        if now ≤ t then ((r.URL, none), s.incFetched)
        else (("", some .ErrKeyNotFound), s) := by
  have hfind := find?_lookup_unique now huniq hr
  obtain ⟨k, u, e, c⟩ := r
  cases e with
  | none =>
    rw [lookupFilter_live k u none c now (by intro t ht; cases ht)] at hfind
    simp [Get, mongo.FindOne, hfind]
  | some t =>
    by_cases hlive : now ≤ t
    · rw [lookupFilter_live k u (some t) c now
        (by intro t' ht; cases ht; exact hlive)] at hfind
      simp [Get, mongo.FindOne, hfind, hlive]
    · rw [lookupFilter_expired k u t c now (by omega)] at hfind
      simp [Get, mongo.FindOne, hfind, hlive, mongo.Error.IsErrNoDocuments]

/-- C3, at a record that expires at instant 100 and is looked up at instant 101. -/
theorem C3_get_expiry_filter_witness :
    Get none { emptyStore with DB := [⟨"abc", "https://example.com", some 100, 0⟩] }
        "abc" 101 =
      (("", some .ErrKeyNotFound),
        { emptyStore with DB := [⟨"abc", "https://example.com", some 100, 0⟩] }) :=
  C3_get_expiry_filter
    { emptyStore with DB := [⟨"abc", "https://example.com", some 100, 0⟩] }
    ⟨"abc", "https://example.com", some 100, 0⟩ 101 (by decide) (by simp [emptyStore])

/-- C4. Visit counting: a record created by a successful `Set` is stored with
count 0 whatever integer was passed as the count argument; after any run of
sequential `Inc` calls on the returned key that all succeeded, `Count` on that
key, at a time at which the record is not expired, returns exactly the number
of calls; and on a store that answers, every such run of `n` calls succeeds. -/
theorem C4_visit_counting (env : Env) (fuel : Nat) (s : MongoURL) (key url : String)
    (expire : Option Int) (count : Int) (k : String) (s1 : MongoURL) (now : Int)
    (hset : Set env fuel s key url expire count = some (.ret k none, s1))
    (hlive : ∀ t, expire = some t → now ≤ t) :
    { Key := k, URL := url, ExpireTime := expire, Count := 0 } ∈ s1.DB ∧
    (∀ (faults : List (Option mongo.Error)) (sN : MongoURL),
      IncAll faults s1 k = some sN →
      Count none sN k now = (((faults.length : Int), none), sN)) ∧
    (∀ n : Nat, ∃ sN, IncAll (List.replicate n none) s1 k = some sN) := by
  obtain ⟨_, _, _, hcase⟩ := Set_spec env fuel s key url expire count _ _ hset
  rcases hcase with ⟨k', hk, _, hfresh, hdb⟩ | ⟨hno, _⟩
  · cases hk
    refine ⟨by simp [hdb], ?_, ?_⟩
    · intro faults sN hinc
      have hN := IncAll_last s.DB k url expire hfresh faults 0 s1 sN hdb hinc
      have hfind := mongo.find?_lookup_append_new now
        { Key := k, URL := url, ExpireTime := expire, Count := 0 + (faults.length : Int) }
        hfresh
      rw [lookupFilter_live k url expire _ now hlive] at hfind
      simp only [Count, mongo.FindOne, hN, hfind, if_true]
      simp
    · intro n
      exact IncAll_reliable s.DB k url expire hfresh n 0 s1 hdb
  · exact absurd rfl (hno k)

/-- C4, at the scenario of the specification: a `Set` with count argument 7 on
the empty store, generated key "k1". -/
theorem C4_visit_counting_witness :
    { Key := "k1", URL := "https://example.com", ExpireTime := none, Count := 0 } ∈
      MongoURL.DB { DB := [⟨"k1", "https://example.com", none, 0⟩], InsertedCounter := 1,
                    FetchedCounter := 0, keyCalls := 1, insertCalls := 1 } ∧
    (∀ (faults : List (Option mongo.Error)) (sN : MongoURL),
      IncAll faults { DB := [⟨"k1", "https://example.com", none, 0⟩], InsertedCounter := 1,
                      FetchedCounter := 0, keyCalls := 1, insertCalls := 1 } "k1" = some sN →
      Count none sN "k1" 1700000000 = (((faults.length : Int), none), sN)) ∧
    (∀ n : Nat, ∃ sN,
      IncAll (List.replicate n none)
        { DB := [⟨"k1", "https://example.com", none, 0⟩], InsertedCounter := 1,
          FetchedCounter := 0, keyCalls := 1, insertCalls := 1 } "k1" = some sN) :=
  C4_visit_counting (reliable fun _ => "k1") 1 emptyStore "" "https://example.com" none 7
    "k1" _ 1700000000 (by decide) (by intro t ht; cases ht)

/-- C5. Error classification of lookups: `Get`, and likewise `Count`, returns
`ErrKeyNotFound` exactly when the find reports that no document matches the
key-and-not-expired filter (an error that is `mongo.ErrNoDocuments`), which a
store that answers does exactly when no document of the collection passes the
filter; when the find fails with any other error `e`, the operation returns
`e` itself together with the zero result, "" for `Get` and 0 for `Count`. -/
theorem C5_lookup_error_classification (fault : Option mongo.Error) (s : MongoURL)
    (key : String) (now : Int) :
    ((Get fault s key now).1.2 = some .ErrKeyNotFound ↔
      ∃ e, mongo.FindOne fault s.DB (mongo.lookupFilter key now) = .error e ∧
        e.IsErrNoDocuments = true) ∧
    ((Count fault s key now).1.2 = some .ErrKeyNotFound ↔
      ∃ e, mongo.FindOne fault s.DB (mongo.lookupFilter key now) = .error e ∧
        e.IsErrNoDocuments = true) ∧
    (∀ e, mongo.FindOne fault s.DB (mongo.lookupFilter key now) = .error e →
      e.IsErrNoDocuments = false →
      (Get fault s key now).1 = ("", some (.Driver e)) ∧
      (Count fault s key now).1 = (0, some (.Driver e))) ∧
    ((Get none s key now).1.2 = some .ErrKeyNotFound ↔
      ∀ d ∈ s.DB, mongo.lookupFilter key now d = false) ∧
    ((Count none s key now).1.2 = some .ErrKeyNotFound ↔
      ∀ d ∈ s.DB, mongo.lookupFilter key now d = false) := by
  refine ⟨?_, ?_, ?_, ?_, ?_⟩
  · unfold Get
    cases hf : mongo.FindOne fault s.DB (mongo.lookupFilter key now) with
    | error e => by_cases he : e.IsErrNoDocuments = true <;> simp [he]
    | ok d => simp
  · unfold Count
    cases hf : mongo.FindOne fault s.DB (mongo.lookupFilter key now) with
    | error e => by_cases he : e.IsErrNoDocuments = true <;> simp [he]
    | ok d => simp
  · intro e hf he
    simp [Get, Count, hf, he]
  · unfold Get mongo.FindOne
    cases hfind : s.DB.find? (mongo.lookupFilter key now) with
    | none =>
      have := List.find?_eq_none.mp hfind
      simpa [mongo.Error.IsErrNoDocuments] using this
    | some d =>
      have hmem := List.mem_of_find?_eq_some hfind
      have hp := List.find?_some hfind
      simp only [reduceCtorEq, false_iff, not_forall]
      exact ⟨d, hmem, by simp [hp]⟩
  · unfold Count mongo.FindOne
    cases hfind : s.DB.find? (mongo.lookupFilter key now) with
    | none =>
      have := List.find?_eq_none.mp hfind
      simpa [mongo.Error.IsErrNoDocuments] using this
    | some d =>
      have hmem := List.mem_of_find?_eq_some hfind
      have hp := List.find?_some hfind
      simp only [reduceCtorEq, false_iff, not_forall]
      exact ⟨d, hmem, by simp [hp]⟩

/-- C7. Fetched-counter telemetry: `Get` raises the "records fetched" counter by
exactly one when it returns a url (a nil error) and leaves it as it is when it
returns an error; `Get` never changes the inserted counter; `Count` and `Inc`
change neither counter, on any path. -/
theorem C7_fetched_counter_telemetry (fault : Option mongo.Error) (s : MongoURL)
    (key : String) (now : Int) :
    (Get fault s key now).2.FetchedCounter =
      s.FetchedCounter + (if (Get fault s key now).1.2 = none then 1 else 0) ∧
    (Get fault s key now).2.InsertedCounter = s.InsertedCounter ∧
    (Count fault s key now).2.InsertedCounter = s.InsertedCounter ∧
    (Count fault s key now).2.FetchedCounter = s.FetchedCounter ∧
    (Inc fault s key).2.InsertedCounter = s.InsertedCounter ∧
    (Inc fault s key).2.FetchedCounter = s.FetchedCounter := by
  refine ⟨?_, ?_, ?_, ?_, (Inc_counters fault s key).1, (Inc_counters fault s key).2.1⟩
  · unfold Get
    cases mongo.FindOne fault s.DB (mongo.lookupFilter key now) with
    | error e => by_cases he : e.IsErrNoDocuments = true <;> simp [he]
    | ok d => simp [MongoURL.incFetched]
  · unfold Get
    cases mongo.FindOne fault s.DB (mongo.lookupFilter key now) with
    | error e => by_cases he : e.IsErrNoDocuments = true <;> simp [he]
    | ok d => simp [MongoURL.incFetched]
  · unfold Count
    cases mongo.FindOne fault s.DB (mongo.lookupFilter key now) with
    | error e => by_cases he : e.IsErrNoDocuments = true <;> simp [he]
    | ok d => simp
  · unfold Count
    cases mongo.FindOne fault s.DB (mongo.lookupFilter key now) with
    | error e => by_cases he : e.IsErrNoDocuments = true <;> simp [he]
    | ok d => simp

/-- C8. Collision retry for generated keys: when the generator never yields a
key that begins with "$" and the store answers every insert, a `Set` with an
empty key whose first `j` generated keys are each taken by an existing record
and whose next generated key is free makes exactly `j + 1` insert attempts
(and as many calls of the generator), returns that next key as generated, and
leaves the collection as it was with one record appended: that key, the
original url and expire_time, count 0. -/
theorem C8_collision_retry (env : Env) (url : String) (expire : Option Int) (j : Nat) :
    ∀ (fuel : Nat) (s : MongoURL) (count : Int),
      (∀ n, HasPrefix (env.Key n) "$" = false) →
      (∀ i, i ≤ j → env.insertFault (s.insertCalls + i) = none) →
      (∀ i, i < j → ∃ d ∈ s.DB, d.Key = env.Key (s.keyCalls + i)) →
      (∀ d ∈ s.DB, d.Key ≠ env.Key (s.keyCalls + j)) →
      j < fuel →
      ∃ s' : MongoURL,
        Set env fuel s "" url expire count =
          some (.ret (env.Key (s.keyCalls + j)) none, s') ∧
        s'.DB = s.DB ++ [{ Key := env.Key (s.keyCalls + j), URL := url,
                           ExpireTime := expire, Count := 0 }] ∧
        s'.insertCalls = s.insertCalls + (j + 1) ∧
        s'.keyCalls = s.keyCalls + (j + 1) := by
  induction j with
  | zero =>
    intro fuel s count _ hok _ hfree hfuel
    obtain ⟨f, rfl⟩ : ∃ f, fuel = f + 1 := ⟨fuel - 1, by omega⟩
    refine ⟨_, Set_generated_fresh env f s url expire count (by simpa using hok 0 le_rfl)
      (by simpa using hfree), rfl, rfl, rfl⟩
  | succ j ih =>
    intro fuel s count hgen hok htaken hfree hfuel
    obtain ⟨f, rfl⟩ : ∃ f, fuel = f + 1 := ⟨fuel - 1, by omega⟩
    rw [Set_generated_collision env f s url expire count (by simpa using hok 0 (Nat.zero_le _))
      (by simpa using htaken 0 (Nat.succ_pos j)) (hgen _)]
    obtain ⟨s', hset, hdb, hins, hkeys⟩ := ih f
      { DB := s.DB, InsertedCounter := s.InsertedCounter + 1,
        FetchedCounter := s.FetchedCounter, keyCalls := s.keyCalls + 1,
        insertCalls := s.insertCalls + 1 } 0 hgen
      (by
        intro i hi
        have := hok (i + 1) (by omega)
        simpa [Nat.add_assoc, Nat.add_comm 1 i] using this)
      (by
        intro i hi
        have := htaken (i + 1) (by omega)
        simpa [Nat.add_assoc, Nat.add_comm 1 i] using this)
      (by
        simpa [Nat.add_assoc, Nat.add_comm 1 j] using hfree)
      (by omega)
    have hk : s.keyCalls + 1 + j = s.keyCalls + (j + 1) := by omega
    simp only [hk] at hset hdb
    exact ⟨s', hset, hdb, by simp only at hins; omega, by simp only at hkeys; omega⟩

/-- C8, at a store holding "abc" and "def" while the generator yields "abc",
"def", "xyz": two collisions, then the insert under "xyz". -/
theorem C8_collision_retry_witness :
    ∃ s' : MongoURL,
      Set (reliable sampleKeys) 3 sampleStore "" "https://example.com" (some 900) 7 =
        some (.ret ((reliable sampleKeys).Key (sampleStore.keyCalls + 2)) none, s') ∧
      s'.DB = sampleStore.DB ++
        [{ Key := (reliable sampleKeys).Key (sampleStore.keyCalls + 2),
           URL := "https://example.com", ExpireTime := some 900, Count := 0 }] ∧
      s'.insertCalls = sampleStore.insertCalls + (2 + 1) ∧
      s'.keyCalls = sampleStore.keyCalls + (2 + 1) :=
  C8_collision_retry (reliable sampleKeys) "https://example.com" (some 900) 2 3 sampleStore 7
    (by
      intro n
      unfold reliable sampleKeys
      by_cases h0 : n = 0
      · subst h0; decide
      · by_cases h1 : n = 1
        · subst h1; decide
        · simp only [h0, h1, if_false]; decide)
    (fun _ _ => rfl)
    (by
      intro i hi
      interval_cases i
      · exact ⟨⟨"abc", "https://a.example", none, 3⟩, by simp [sampleStore], by decide⟩
      · exact ⟨⟨"def", "https://d.example", some 50, 1⟩, by simp [sampleStore], by decide⟩)
    (by decide)
    (by decide)

/-- C9. Effect and frame of `Inc`: in a store whose keys are unique, for every
stored record `r`, expired or not, `Inc` of its key succeeds and the collection
afterwards is the collection before with `r` replaced, in place, by `r` with
its count raised by exactly one: key, url and expire_time of `r` and every
other record are as before.  `Get` and `Count` leave the collection as it is,
on every path. -/
theorem C9_inc_effect_and_frame (s : MongoURL) (r : model.URL)
    (huniq : UniqueKeys s) (hr : r ∈ s.DB) :
    (∃ pre post, s.DB = pre ++ r :: post ∧
      Inc none s r.Key =
        (none, { s with DB := pre ++ { r with Count := r.Count + 1 } :: post })) ∧
    (∀ (fault : Option mongo.Error) (key : String) (now : Int),
      (Get fault s key now).2.DB = s.DB ∧ (Count fault s key now).2.DB = s.DB) := by
  constructor
  · obtain ⟨pre, post, hdb, hpre, _⟩ := mem_split_first_key huniq hr
    exact ⟨pre, post, hdb, Inc_first s pre r post hdb hpre⟩
  · intro fault key now
    constructor
    · unfold Get
      cases mongo.FindOne fault s.DB (mongo.lookupFilter key now) with
      | error e => by_cases he : e.IsErrNoDocuments = true <;> simp [he]
      | ok d => simp [MongoURL.incFetched]
    · unfold Count
      cases mongo.FindOne fault s.DB (mongo.lookupFilter key now) with
      | error e => by_cases he : e.IsErrNoDocuments = true <;> simp [he]
      | ok d => simp

/-- C9, at the record under "def", whose expiry instant 50 may long be past. -/
theorem C9_inc_effect_and_frame_witness :
    (∃ pre post, sampleStore.DB = pre ++ ⟨"def", "https://d.example", some 50, 1⟩ :: post ∧
      Inc none sampleStore (model.URL.Key ⟨"def", "https://d.example", some 50, 1⟩) =
        (none, { sampleStore with
                 DB := pre ++ { (⟨"def", "https://d.example", some 50, 1⟩ : model.URL) with
                                Count := (model.URL.Count
                                  ⟨"def", "https://d.example", some 50, 1⟩) + 1 } :: post })) ∧
    (∀ (fault : Option mongo.Error) (key : String) (now : Int),
      (Get fault sampleStore key now).2.DB = sampleStore.DB ∧
      (Count fault sampleStore key now).2.DB = sampleStore.DB) :=
  C9_inc_effect_and_frame sampleStore ⟨"def", "https://d.example", some 50, 1⟩
    (by decide) (by simp [sampleStore])

/-- C6, what the code does: `Set` calls `InsertedCounter.Inc()` before the insert,
so a `Set` that fails with `ErrDuplicateKey` ("abc" on a store holding "$abc")
has raised the counter by one, and a `Set` that succeeds after two collisions
has raised it by three. -/
theorem C6_inserted_counter_counts_attempts :
    Set (reliable sampleKeys) 1
        { emptyStore with DB := [⟨"$abc", "https://x.io", none, 0⟩] }
        "abc" "https://y.io" none 0 =
      some (.ret "" (some .ErrDuplicateKey),
        { DB := [⟨"$abc", "https://x.io", none, 0⟩], InsertedCounter := 1,
          FetchedCounter := 0, keyCalls := 0, insertCalls := 1 }) ∧
    Set (reliable sampleKeys) 3 sampleStore "" "https://example.com" none 0 =
      some (.ret "xyz" none,
        { DB := sampleStore.DB ++ [⟨"xyz", "https://example.com", none, 0⟩],
          InsertedCounter := sampleStore.InsertedCounter + 3,
          FetchedCounter := 5, keyCalls := 3, insertCalls := 3 }) := by
  constructor <;> decide

/-- C10, what the code does: when `InsertOne` fails with a `mongo.WriteException`
whose `WriteErrors` is empty (a write-concern failure), `exp.WriteErrors[0]` is
out of range and `Set` panics instead of returning the error. -/
theorem C10_set_panics_on_empty_write_errors :
    Set { Key := sampleKeys, insertFault := fun _ => some (.WriteException []) } 1
        emptyStore "" "https://example.com" none 0 =
      some (.panic "index out of range [0] with length 0",
        { DB := [], InsertedCounter := 1, FetchedCounter := 0, keyCalls := 1,
          insertCalls := 1 }) := by
  decide

end store
